import Mathlib

/-!
# Verification of the treebrain task-orchestration core

Shallow embedding of `src/treebrain` (Python): the Planner's task graph
(`planner.py`), the executor pipeline (`action_agent.py`), and the
Orchestrator dispatch loop (`orchestrator.py`), together with theorems
settling the specification's claims about them.

Statuses are kept as the literal strings the source uses
(`"pending"`, `"completed"`, `"failed"`, `"success"`, `"error"`).
-/

namespace Treebrain

/-- `AgentRole` enum from `core/interfaces.py`. -/
inductive AgentRole
  | planner
  | implementation
  | librarian
deriving DecidableEq, Repr

/-- `Task` from `agents/planner.py`: description, assigned role,
dependency descriptions, status string, attempt count.
The constructor defaults (`status = "pending"`, `attempts = 0`,
`dependencies = []` when omitted) are written out at each creation site. -/
structure Task where
  description : String
  assigned_to : AgentRole
  dependencies : List String
  status : String
  attempts : Nat
deriving DecidableEq, Repr

/-- `StatusUpdate` dataclass from `core/interfaces.py`. -/
structure StatusUpdate where
  agent : AgentRole
  status : String
  output_files : Option (List String)
  error_message : Option String
deriving DecidableEq, Repr

/-- The mutable state of a `PlannerAgent`: its task queue (the pending
pool), completed list, and retry budget (`max_retries`, default 3). -/
structure PlannerState where
  task_queue : List Task
  completed_tasks : List Task
  max_retries : Nat
deriving DecidableEq, Repr

/-- `[t.description for t in self.completed_tasks]` — the completed-description
set used as the dependency oracle in `get_next_task`. -/
def completedDescriptions (s : PlannerState) : List String :=
  s.completed_tasks.map Task.description

/-- The loop body condition of `PlannerAgent.get_next_task`, as a proposition:
role matches, status is `"pending"`, and every dependency description is the
description of some completed task. -/
def TaskReady (s : PlannerState) (r : AgentRole) (t : Task) : Prop :=
  t.assigned_to = r ∧ t.status = "pending" ∧
    ∀ d ∈ t.dependencies, d ∈ completedDescriptions s

instance (s : PlannerState) (r : AgentRole) (t : Task) :
    Decidable (TaskReady s r t) := by
  unfold TaskReady; infer_instance

/-- The scan of `PlannerAgent.get_next_task`: walk the queue in order and
return the first task satisfying the loop condition. -/
def findNextTask (s : PlannerState) (r : AgentRole) : List Task → Option Task
  | [] => none
  | t :: ts => if TaskReady s r t then some t else findNextTask s r ts

/-- `PlannerAgent.get_next_task` from `agents/planner.py` (lines 65-73). -/
def get_next_task (s : PlannerState) (r : AgentRole) : Option Task :=
  findNextTask s r s.task_queue

/-- Boolean form of `TaskReady`, used to phrase the claim's
"first subtask whose ..." via `List.find?`. -/
def taskReadyB (s : PlannerState) (r : AgentRole) (t : Task) : Bool :=
  decide (TaskReady s r t)

/-- Spec-side reformulation of `next_ready` (§4.1 of the specification):
the first element of the pending pool, in insertion order, passing the
readiness test. To be compared against the source translation. -/
def nextReadySpec (s : PlannerState) (r : AgentRole) : Option Task :=
  s.task_queue.find? (taskReadyB s r)

lemma findNextTask_eq_find? (s : PlannerState) (r : AgentRole) :
    ∀ l : List Task, findNextTask s r l = l.find? (taskReadyB s r) := by
  intro l
  induction l with
  | nil => rfl
  | cons t ts ih =>
    by_cases h : TaskReady s r t
    · simp [findNextTask, List.find?, taskReadyB, h]
    · simp [findNextTask, List.find?, taskReadyB, h, ih]

lemma get_next_task_eq_spec (s : PlannerState) (r : AgentRole) :
    get_next_task s r = nextReadySpec s r :=
  findNextTask_eq_find? s r s.task_queue

lemma findNextTask_some {s : PlannerState} {r : AgentRole} {l : List Task}
    {t : Task} (h : findNextTask s r l = some t) :
    t ∈ l ∧ TaskReady s r t := by
  induction l with
  | nil => simp [findNextTask] at h
  | cons u us ih =>
    by_cases hu : TaskReady s r u
    · simp [findNextTask, hu] at h
      exact ⟨by simp [h.symm], h ▸ hu⟩
    · simp [findNextTask, hu] at h
      rcases ih h with ⟨hmem, hready⟩
      exact ⟨List.mem_cons_of_mem _ hmem, hready⟩

/-- If `get_next_task` returns a task, that task is in the queue and ready. -/
lemma get_next_task_some {s : PlannerState} {r : AgentRole} {t : Task}
    (h : get_next_task s r = some t) :
    t ∈ s.task_queue ∧ TaskReady s r t :=
  findNextTask_some h

/-- C1: `get_next_task` returns the first subtask, in insertion order of the
pending pool, whose role matches, whose status is `"pending"`, and whose
every dependency description is the description of some completed subtask
(`none` when no such subtask exists) — the `List.find?` formulation; and in
particular any returned subtask has its full dependency set inside the
completed-description set at call time. -/
theorem next_ready_first_ready_and_gated (s : PlannerState) (r : AgentRole) :
    get_next_task s r = s.task_queue.find? (taskReadyB s r) ∧
    (∀ t : Task, get_next_task s r = some t →
      t.assigned_to = r ∧ t.status = "pending" ∧
        ∀ d ∈ t.dependencies, d ∈ completedDescriptions s) := by
  refine ⟨get_next_task_eq_spec s r, ?_⟩
  intro t ht
  exact (get_next_task_some ht).2

/-- Witness for C1 at a concrete state: a queue holding a blocked
backend task (a dependency not yet completed) followed by a ready frontend
task; `get_next_task` skips the blocked one and returns the ready one,
whose dependency list is contained in the completed descriptions. -/
theorem next_ready_first_ready_and_gated_witness :
    (⟨"frontend", AgentRole.implementation, ["ui"], "pending", 0⟩ : Task).assigned_to
        = AgentRole.implementation ∧
    (⟨"frontend", AgentRole.implementation, ["ui"], "pending", 0⟩ : Task).status
        = "pending" ∧
    ∀ d ∈ (⟨"frontend", AgentRole.implementation, ["ui"], "pending", 0⟩ : Task).dependencies,
      d ∈ completedDescriptions
        ⟨[⟨"backend", AgentRole.implementation, ["api"], "pending", 0⟩,
          ⟨"frontend", AgentRole.implementation, ["ui"], "pending", 0⟩],
         [⟨"ui", AgentRole.implementation, [], "completed", 0⟩], 3⟩ :=
  (next_ready_first_ready_and_gated
    ⟨[⟨"backend", AgentRole.implementation, ["api"], "pending", 0⟩,
      ⟨"frontend", AgentRole.implementation, ["ui"], "pending", 0⟩],
     [⟨"ui", AgentRole.implementation, [], "completed", 0⟩], 3⟩
    AgentRole.implementation).2
    ⟨"frontend", AgentRole.implementation, ["ui"], "pending", 0⟩ (by decide)

/-- The in-place update a failed `mark_task_complete` performs on the matched
task (`agents/planner.py` lines 81-88): `attempts += 1`, then the status
becomes `"failed"` when the incremented count reaches `max_retries`,
otherwise stays `"pending"`. -/
def failTask (maxRetries : Nat) (t : Task) : Task :=
  { t with attempts := t.attempts + 1,
           status := if t.attempts + 1 ≥ maxRetries then "failed" else "pending" }

/-- The loop of `PlannerAgent.mark_task_complete` over the queue: returns the
new queue together with the (zero- or one-element) list of tasks moved to the
completed list. The scan stops at the first task whose description equals the
argument, regardless of its status; on success that task is removed from the
queue and re-statused `"completed"`, on failure it is updated in place by
`failTask`. -/
def markAux (maxRetries : Nat) (d : String) (success : Bool) :
    List Task → List Task × List Task
  | [] => ([], [])
  | t :: ts =>
    if t.description = d then
      if success then (ts, [{ t with status := "completed" }])
      else (failTask maxRetries t :: ts, [])
    else
      let p := markAux maxRetries d success ts
      (t :: p.1, p.2)

/-- `PlannerAgent.mark_task_complete` from `agents/planner.py` (lines 75-89). -/
def mark_task_complete (s : PlannerState) (d : String) (success : Bool) :
    PlannerState :=
  let p := markAux s.max_retries d success s.task_queue
  { s with task_queue := p.1, completed_tasks := s.completed_tasks ++ p.2 }

lemma markAux_no_match (maxRetries : Nat) (d : String) (success : Bool)
    {l : List Task} (h : ∀ t ∈ l, t.description ≠ d) :
    markAux maxRetries d success l = (l, []) := by
  induction l with
  | nil => rfl
  | cons t ts ih =>
    have ht : t.description ≠ d := h t (List.mem_cons_self t ts)
    have hrest : ∀ u ∈ ts, u.description ≠ d :=
      fun u hu => h u (List.mem_cons_of_mem t hu)
    simp [markAux, ht, ih hrest]

lemma markAux_first_match_true (maxRetries : Nat) {l₁ l₂ : List Task} {u : Task}
    (h₁ : ∀ v ∈ l₁, v.description ≠ u.description) :
    markAux maxRetries u.description true (l₁ ++ u :: l₂) =
      (l₁ ++ l₂, [{ u with status := "completed" }]) := by
  induction l₁ with
  | nil => simp [markAux]
  | cons v vs ih =>
    have hv : v.description ≠ u.description := h₁ v (List.mem_cons_self v vs)
    have hrest : ∀ w ∈ vs, w.description ≠ u.description :=
      fun w hw => h₁ w (List.mem_cons_of_mem v hw)
    simp [markAux, hv, ih hrest]

lemma markAux_first_match_false (maxRetries : Nat) {l₁ l₂ : List Task} {u : Task}
    (h₁ : ∀ v ∈ l₁, v.description ≠ u.description) :
    markAux maxRetries u.description false (l₁ ++ u :: l₂) =
      (l₁ ++ failTask maxRetries u :: l₂, []) := by
  induction l₁ with
  | nil => simp [markAux]
  | cons v vs ih =>
    have hv : v.description ≠ u.description := h₁ v (List.mem_cons_self v vs)
    have hrest : ∀ w ∈ vs, w.description ≠ u.description :=
      fun w hw => h₁ w (List.mem_cons_of_mem v hw)
    simp [markAux, hv, ih hrest]

/-- When no queued task bears the description, `mark_task_complete`
leaves the planner state untouched. -/
lemma mark_no_match {s : PlannerState} {d : String}
    (h : ∀ t ∈ s.task_queue, t.description ≠ d) (success : Bool) :
    mark_task_complete s d success = s := by
  simp [mark_task_complete, markAux_no_match s.max_retries d success h]

/-- Characterization of a successful `mark_task_complete`: the first
queued task with the given description (any status) is removed from the
queue and appended to the completed list with status `"completed"`. -/
lemma mark_success_eq {s : PlannerState} {l₁ l₂ : List Task} {u : Task}
    (hq : s.task_queue = l₁ ++ u :: l₂)
    (h₁ : ∀ v ∈ l₁, v.description ≠ u.description) :
    mark_task_complete s u.description true =
      { s with task_queue := l₁ ++ l₂,
               completed_tasks :=
                 s.completed_tasks ++ [{ u with status := "completed" }] } := by
  simp [mark_task_complete, hq, markAux_first_match_true s.max_retries h₁]

/-- Characterization of a failed `mark_task_complete`: the first queued
task with the given description is updated in place by `failTask`; the
rest of the queue and the completed list are unchanged. -/
lemma mark_failure_eq {s : PlannerState} {l₁ l₂ : List Task} {u : Task}
    (hq : s.task_queue = l₁ ++ u :: l₂)
    (h₁ : ∀ v ∈ l₁, v.description ≠ u.description) :
    mark_task_complete s u.description false =
      { s with task_queue := l₁ ++ failTask s.max_retries u :: l₂ } := by
  simp [mark_task_complete, hq, markAux_first_match_false s.max_retries h₁]

/-- C10: when no subtask in the task queue has the given description,
`mark_task_complete` (either success value) is a silent no-op: the whole
planner state — queue, completed list, every status and attempt count —
is unchanged, and no error is signalled (the function returns normally). -/
theorem mark_complete_absent_description_noop (s : PlannerState) (d : String)
    (h : ∀ t ∈ s.task_queue, t.description ≠ d) :
    mark_task_complete s d true = s ∧ mark_task_complete s d false = s :=
  ⟨mark_no_match h true, mark_no_match h false⟩

/-- Witness for C10: marking a description absent from a concrete
two-task queue changes nothing, for both success values. -/
theorem mark_complete_absent_description_noop_witness :
    mark_task_complete
        ⟨[⟨"a", AgentRole.implementation, [], "pending", 0⟩,
          ⟨"b", AgentRole.implementation, [], "failed", 3⟩], [], 3⟩ "c" true =
      ⟨[⟨"a", AgentRole.implementation, [], "pending", 0⟩,
        ⟨"b", AgentRole.implementation, [], "failed", 3⟩], [], 3⟩ ∧
    mark_task_complete
        ⟨[⟨"a", AgentRole.implementation, [], "pending", 0⟩,
          ⟨"b", AgentRole.implementation, [], "failed", 3⟩], [], 3⟩ "c" false =
      ⟨[⟨"a", AgentRole.implementation, [], "pending", 0⟩,
        ⟨"b", AgentRole.implementation, [], "failed", 3⟩], [], 3⟩ :=
  mark_complete_absent_description_noop
    ⟨[⟨"a", AgentRole.implementation, [], "pending", 0⟩,
      ⟨"b", AgentRole.implementation, [], "failed", 3⟩], [], 3⟩ "c" (by decide)

/-- Counterexample to C9 as stated: `mark_task_complete` does not skip
subtasks that are not pending. In a queue whose only subtask with
description `"a"` is permanently `"failed"`, a success call still moves
that failed subtask to the completed set (per the claim, there being no
pending match, the state should have been left unchanged). -/
theorem mark_complete_completes_failed_task :
    mark_task_complete
        ⟨[⟨"a", AgentRole.implementation, [], "failed", 3⟩], [], 3⟩ "a" true =
      ⟨[], [⟨"a", AgentRole.implementation, [], "completed", 3⟩], 3⟩ ∧
    mark_task_complete
        ⟨[⟨"a", AgentRole.implementation, [], "failed", 3⟩], [], 3⟩ "a" true ≠
      ⟨[⟨"a", AgentRole.implementation, [], "failed", 3⟩], [], 3⟩ := by
  constructor
  · decide
  · decide

/-- C9 (amended): `mark_task_complete` locates the first subtask in the
queue whose description equals the argument, regardless of its status; on
success that subtask's status transitions to `"completed"` and it moves
from the queue to the end of the completed list; every other subtask is
left in place, so at most one subtask is affected per call. -/
theorem mark_complete_success_moves_first_match (s : PlannerState)
    (l₁ l₂ : List Task) (u : Task)
    (hq : s.task_queue = l₁ ++ u :: l₂)
    (h₁ : ∀ v ∈ l₁, v.description ≠ u.description) :
    (mark_task_complete s u.description true).task_queue = l₁ ++ l₂ ∧
    (mark_task_complete s u.description true).completed_tasks =
      s.completed_tasks ++ [{ u with status := "completed" }] := by
  rw [mark_success_eq hq h₁]
  exact ⟨rfl, rfl⟩

/-- Witness for amended C9: in a concrete three-task queue the middle
task (first bearing description `"b"`) is completed and moved; its
neighbours stay in the queue. -/
theorem mark_complete_success_moves_first_match_witness :
    (mark_task_complete
        ⟨[⟨"a", AgentRole.implementation, [], "failed", 3⟩,
          ⟨"b", AgentRole.implementation, [], "pending", 1⟩,
          ⟨"c", AgentRole.implementation, [], "pending", 0⟩], [], 3⟩
        "b" true).task_queue =
      [⟨"a", AgentRole.implementation, [], "failed", 3⟩] ++
        [⟨"c", AgentRole.implementation, [], "pending", 0⟩] ∧
    (mark_task_complete
        ⟨[⟨"a", AgentRole.implementation, [], "failed", 3⟩,
          ⟨"b", AgentRole.implementation, [], "pending", 1⟩,
          ⟨"c", AgentRole.implementation, [], "pending", 0⟩], [], 3⟩
        "b" true).completed_tasks =
      [] ++ [⟨"b", AgentRole.implementation, [], "completed", 1⟩] :=
  mark_complete_success_moves_first_match
    ⟨[⟨"a", AgentRole.implementation, [], "failed", 3⟩,
      ⟨"b", AgentRole.implementation, [], "pending", 1⟩,
      ⟨"c", AgentRole.implementation, [], "pending", 0⟩], [], 3⟩
    [⟨"a", AgentRole.implementation, [], "failed", 3⟩]
    [⟨"c", AgentRole.implementation, [], "pending", 0⟩]
    ⟨"b", AgentRole.implementation, [], "pending", 1⟩ rfl (by decide)

/-- Counterexample to C4 as stated: with two queued subtasks sharing
description `"a"`, a failed `mark_task_complete "a"` increments only the
first; the second subtask — also "in the pending pool" with that
description — keeps attempt count 0, though the claim requires it to
increase by exactly 1. -/
theorem mark_complete_failure_skips_duplicate :
    (mark_task_complete
        ⟨[⟨"a", AgentRole.implementation, [], "pending", 0⟩,
          ⟨"a", AgentRole.implementation, [], "pending", 0⟩], [], 3⟩
        "a" false).task_queue =
      [⟨"a", AgentRole.implementation, [], "pending", 1⟩,
       ⟨"a", AgentRole.implementation, [], "pending", 0⟩] ∧
    ((mark_task_complete
        ⟨[⟨"a", AgentRole.implementation, [], "pending", 0⟩,
          ⟨"a", AgentRole.implementation, [], "pending", 0⟩], [], 3⟩
        "a" false).task_queue.get? 1 ≠
      some ⟨"a", AgentRole.implementation, [], "pending", 1⟩) := by
  constructor
  · decide
  · decide

lemma perm_snoc_middle {α : Type} (A B C : List α) (p : α) :
    (A ++ B ++ (C ++ [p])).Perm (A ++ p :: B ++ C) := by
  have h : (B ++ C ++ [p]).Perm (p :: (B ++ C)) :=
    List.perm_append_singleton p (B ++ C)
  simpa [List.append_assoc, List.cons_append] using List.Perm.append_left A h

/-- C4 (amended): a failed `mark_task_complete` call with the description
of subtask `u` — `u` being the first queue entry bearing that description —
increases exactly `u`'s attempt count, by exactly 1, leaving every other
subtask and the completed list unchanged; and a successful call changes no
subtask's attempt count: the multiset of (description, attempts) pairs over
queue plus completed list is preserved. -/
theorem mark_complete_attempt_accounting (s : PlannerState)
    (l₁ l₂ : List Task) (u : Task)
    (hq : s.task_queue = l₁ ++ u :: l₂)
    (h₁ : ∀ v ∈ l₁, v.description ≠ u.description) :
    ((mark_task_complete s u.description false).task_queue =
        l₁ ++ failTask s.max_retries u :: l₂ ∧
      (failTask s.max_retries u).attempts = u.attempts + 1 ∧
      (failTask s.max_retries u).description = u.description ∧
      (mark_task_complete s u.description false).completed_tasks =
        s.completed_tasks) ∧
    List.Perm
      (((mark_task_complete s u.description true).task_queue ++
          (mark_task_complete s u.description true).completed_tasks).map
        (fun t => (t.description, t.attempts)))
      ((s.task_queue ++ s.completed_tasks).map
        (fun t => (t.description, t.attempts))) := by
  constructor
  · rw [mark_failure_eq hq h₁]
    exact ⟨rfl, rfl, rfl, rfl⟩
  · rw [mark_success_eq hq h₁]
    simp only [hq, List.map_append, List.map_cons]
    exact perm_snoc_middle _ _ _ _

/-- Witness for amended C4 at a concrete three-task queue: failing the
middle task `"b"` bumps exactly its attempt count from 1 to 2, and a
success call preserves every (description, attempts) pair. -/
theorem mark_complete_attempt_accounting_witness :
    ((mark_task_complete
        ⟨[⟨"a", AgentRole.implementation, [], "failed", 3⟩,
          ⟨"b", AgentRole.implementation, [], "pending", 1⟩,
          ⟨"c", AgentRole.implementation, [], "pending", 0⟩],
         [⟨"d", AgentRole.implementation, [], "completed", 0⟩], 3⟩
        "b" false).task_queue =
        [⟨"a", AgentRole.implementation, [], "failed", 3⟩] ++
          failTask 3 ⟨"b", AgentRole.implementation, [], "pending", 1⟩ ::
          [⟨"c", AgentRole.implementation, [], "pending", 0⟩] ∧
      (failTask 3 ⟨"b", AgentRole.implementation, [], "pending", 1⟩).attempts =
        1 + 1 ∧
      (failTask 3 ⟨"b", AgentRole.implementation, [], "pending", 1⟩).description =
        "b" ∧
      (mark_task_complete
        ⟨[⟨"a", AgentRole.implementation, [], "failed", 3⟩,
          ⟨"b", AgentRole.implementation, [], "pending", 1⟩,
          ⟨"c", AgentRole.implementation, [], "pending", 0⟩],
         [⟨"d", AgentRole.implementation, [], "completed", 0⟩], 3⟩
        "b" false).completed_tasks =
        [⟨"d", AgentRole.implementation, [], "completed", 0⟩]) ∧
    List.Perm
      (((mark_task_complete
          ⟨[⟨"a", AgentRole.implementation, [], "failed", 3⟩,
            ⟨"b", AgentRole.implementation, [], "pending", 1⟩,
            ⟨"c", AgentRole.implementation, [], "pending", 0⟩],
           [⟨"d", AgentRole.implementation, [], "completed", 0⟩], 3⟩
          "b" true).task_queue ++
        (mark_task_complete
          ⟨[⟨"a", AgentRole.implementation, [], "failed", 3⟩,
            ⟨"b", AgentRole.implementation, [], "pending", 1⟩,
            ⟨"c", AgentRole.implementation, [], "pending", 0⟩],
           [⟨"d", AgentRole.implementation, [], "completed", 0⟩], 3⟩
          "b" true).completed_tasks).map
        (fun t => (t.description, t.attempts)))
      ((([⟨"a", AgentRole.implementation, [], "failed", 3⟩,
          ⟨"b", AgentRole.implementation, [], "pending", 1⟩,
          ⟨"c", AgentRole.implementation, [], "pending", 0⟩] : List Task) ++
        ([⟨"d", AgentRole.implementation, [], "completed", 0⟩] : List Task)).map
        (fun t => (t.description, t.attempts))) :=
  mark_complete_attempt_accounting
    ⟨[⟨"a", AgentRole.implementation, [], "failed", 3⟩,
      ⟨"b", AgentRole.implementation, [], "pending", 1⟩,
      ⟨"c", AgentRole.implementation, [], "pending", 0⟩],
     [⟨"d", AgentRole.implementation, [], "completed", 0⟩], 3⟩
    [⟨"a", AgentRole.implementation, [], "failed", 3⟩]
    [⟨"c", AgentRole.implementation, [], "pending", 0⟩]
    ⟨"b", AgentRole.implementation, [], "pending", 1⟩ rfl (by decide)

/-- `PlannerAgent.decompose_task` from `agents/planner.py` (lines 38-55):
always two Implementation subtasks, frontend then backend, each built by the
`Task` constructor with its defaults (no dependencies, `"pending"`, 0
attempts). -/
def decompose_task (objective : String) : List Task :=
  [⟨"Implement frontend for: " ++ objective, AgentRole.implementation, [],
     "pending", 0⟩,
   ⟨"Implement backend for: " ++ objective, AgentRole.implementation, [],
     "pending", 0⟩]

/-- `PlannerAgent.process_task` from `agents/planner.py` (lines 19-36).
The `fault` parameter models the `try/except`: `none` is the normal path
(decompose, append each subtask to the queue, report success with no output
files); `some msg` models an exception raised inside `decompose_task`,
reported by `handle_error` as an error outcome with the queue untouched. -/
def planner_process_task (fault : Option String) (s : PlannerState)
    (objective : String) : StatusUpdate × PlannerState :=
  match fault with
  | some msg => (⟨AgentRole.planner, "error", none, some msg⟩, s)
  | none =>
    (⟨AgentRole.planner, "success", none, none⟩,
     { s with task_queue := s.task_queue ++ decompose_task objective })

/-- C8: for every objective string, the Planner's decomposition emits exactly
two subtasks, both for the Implementation role, described
`"Implement frontend for: <objective>"` then
`"Implement backend for: <objective>"`, each with no dependencies, status
`"pending"` and attempt count 0. -/
theorem decompose_emits_frontend_backend_pair (objective : String) :
    (decompose_task objective).length = 2 ∧
    (decompose_task objective).map Task.description =
      ["Implement frontend for: " ++ objective,
       "Implement backend for: " ++ objective] ∧
    ∀ t ∈ decompose_task objective,
      t.assigned_to = AgentRole.implementation ∧ t.dependencies = [] ∧
        t.status = "pending" ∧ t.attempts = 0 := by
  refine ⟨rfl, rfl, ?_⟩
  intro t ht
  simp only [decompose_task, List.mem_cons, List.not_mem_nil, or_false] at ht
  rcases ht with h | h
  · exact h ▸ ⟨rfl, rfl, rfl, rfl⟩
  · exact h ▸ ⟨rfl, rfl, rfl, rfl⟩

/-- Witness for C8 at the objective of the specification's Scenario A. -/
theorem decompose_emits_frontend_backend_pair_witness :
    (decompose_task "Create a hello world app with frontend and backend").length
        = 2 ∧
    (⟨"Implement frontend for: Create a hello world app with frontend and backend",
       AgentRole.implementation, [], "pending", 0⟩ : Task).assigned_to =
        AgentRole.implementation ∧
    (⟨"Implement frontend for: Create a hello world app with frontend and backend",
       AgentRole.implementation, [], "pending", 0⟩ : Task).dependencies = [] ∧
    (⟨"Implement frontend for: Create a hello world app with frontend and backend",
       AgentRole.implementation, [], "pending", 0⟩ : Task).status = "pending" ∧
    (⟨"Implement frontend for: Create a hello world app with frontend and backend",
       AgentRole.implementation, [], "pending", 0⟩ : Task).attempts = 0 :=
  ⟨(decompose_emits_frontend_backend_pair
      "Create a hello world app with frontend and backend").1,
   (decompose_emits_frontend_backend_pair
      "Create a hello world app with frontend and backend").2.2
     ⟨"Implement frontend for: Create a hello world app with frontend and backend",
       AgentRole.implementation, [], "pending", 0⟩ (by simp [decompose_task])⟩

/-- One executor interaction of the dispatch-loop body in
`Orchestrator.process_task` (`core/orchestrator.py` lines 71-94): ask the
planner for the next Implementation task; if one is returned, run the
executor — abstracted as the `policy` map from the task description to the
success (`true` = `"success"`) of the resulting outcome — and feed the result
back through `mark_task_complete`; otherwise do nothing. -/
def dispatchStep (policy : String → Bool) (s : PlannerState) : PlannerState :=
  match get_next_task s AgentRole.implementation with
  | none => s
  | some t => mark_task_complete s t.description (policy t.description)

/-- One full pass of the `while True` body: iterate the configured
Implementation executors in registration order. -/
def dispatchPass (agents : List (String → Bool)) (s : PlannerState) :
    PlannerState :=
  agents.foldl (fun st ag => dispatchStep ag st) s

/-- The loop-exit test
`any(t.status == "pending" for t in self.planner.task_queue)`
(`core/orchestrator.py` line 96), i.e. the specification's `has_pending`. -/
def has_pending (s : PlannerState) : Bool :=
  s.task_queue.any (fun t => decide (t.status = "pending"))

/-- `n` dispatch passes in sequence. -/
def runPasses (agents : List (String → Bool)) : Nat → PlannerState → PlannerState
  | 0, s => s
  | n + 1, s => dispatchPass agents (runPasses agents n s)

/-- The `while True` dispatch loop with explicit fuel: run a pass, exit when
nothing is pending, else continue; `none` means the fuel ran out with the
loop still running. -/
def dispatchLoop (agents : List (String → Bool)) :
    Nat → PlannerState → Option PlannerState
  | 0, _ => none
  | fuel + 1, s =>
    let s' := dispatchPass agents s
    if has_pending s' then dispatchLoop agents fuel s' else some s'

/-- The counts of `PlannerAgent.get_project_status`
(`agents/planner.py` lines 91-105). -/
structure ProjectStatus where
  pending_tasks : Nat
  completed_count : Nat
  failed_tasks : Nat
deriving DecidableEq, Repr

def get_project_status (s : PlannerState) : ProjectStatus :=
  ⟨(s.task_queue.filter (fun t => decide (t.status = "pending"))).length,
   s.completed_tasks.length,
   (s.task_queue.filter (fun t => decide (t.status = "failed"))).length⟩

/-- The result document `Orchestrator.process_task` returns: run-level
status, optional error message, and the embedded Project State snapshot
(modelled by its subtask counts). -/
structure ResultDoc where
  status : String
  error : Option String
  project_status : ProjectStatus
deriving DecidableEq, Repr

/-- `Orchestrator.process_task` (`core/orchestrator.py` lines 54-106):
planner step first; on planner error return the error document immediately;
otherwise run the dispatch loop and return the success document. The pair's
second component is the planner state the orchestrator retains afterwards.
`none` in the first component models the loop still spinning when the fuel
runs out (the real loop simply does not return then). -/
def process (fault : Option String) (agents : List (String → Bool))
    (objective : String) (fuel : Nat) (s : PlannerState) :
    Option ResultDoc × PlannerState :=
  let pr := planner_process_task fault s objective
  if pr.1.status = "error" then
    (some ⟨"error", pr.1.error_message, get_project_status pr.2⟩, pr.2)
  else
    match dispatchLoop agents fuel pr.2 with
    | none => (none, pr.2)
    | some sF => (some ⟨"success", none, get_project_status sF⟩, sF)

/-- C5: whenever `process` returns a result document, its run-level status is
`"success"` exactly when the Planner step did not fail — in particular a run
whose subtasks exhausted their retry budgets still reports `"success"`. -/
theorem run_status_success_iff_planner_ok (fault : Option String)
    (agents : List (String → Bool)) (objective : String) (fuel : Nat)
    (s : PlannerState) (doc : ResultDoc)
    (h : (process fault agents objective fuel s).1 = some doc) :
    doc.status = "success" ↔ fault = none := by
  cases fault with
  | some m =>
    simp [process, planner_process_task] at h
    simp [← h]
  | none =>
    simp only [process, planner_process_task] at h
    rw [if_neg (by simp)] at h
    cases hl : dispatchLoop agents fuel
        { s with task_queue := s.task_queue ++ decompose_task objective } with
    | none => rw [hl] at h; simp at h
    | some sF => rw [hl] at h; simp at h; simp [← h]

/-- Witness for C5, the specification's Scenario B writ small: a single
always-failing executor drives both decomposed subtasks to attempt count 3
and permanent `"failed"`, the loop then drains (`has_pending` false), and the
returned document still carries run-level status `"success"` with the
snapshot reporting 0 pending, 0 completed, 2 failed. -/
theorem run_status_success_iff_planner_ok_witness :
    (process none [fun _ => false] "x" 10 ⟨[], [], 3⟩).1 =
      some ⟨"success", none, ⟨0, 0, 2⟩⟩ ∧
    (⟨"success", none, ⟨0, 0, 2⟩⟩ : ResultDoc).status = "success" ∧
    (process none [fun _ => false] "x" 10 ⟨[], [], 3⟩).2.task_queue =
      [⟨"Implement frontend for: x", AgentRole.implementation, [], "failed", 3⟩,
       ⟨"Implement backend for: x", AgentRole.implementation, [], "failed", 3⟩] :=
  ⟨by decide,
   (run_status_success_iff_planner_ok none [fun _ => false] "x" 10 ⟨[], [], 3⟩
      ⟨"success", none, ⟨0, 0, 2⟩⟩ (by decide)).mpr rfl,
   by decide⟩

/-- C7: when the Planner step fails, `process` immediately returns the error
document embedding the Project State snapshot, the planner state is exactly
the input state, and — starting from the empty queue a fresh Orchestrator
has — zero subtasks are ever added to the task queue. -/
theorem planner_error_aborts_run (m : String) (agents : List (String → Bool))
    (objective : String) (fuel : Nat) (s : PlannerState)
    (hq : s.task_queue = []) :
    (process (some m) agents objective fuel s).1 =
      some ⟨"error", some m, get_project_status s⟩ ∧
    (process (some m) agents objective fuel s).2 = s ∧
    (process (some m) agents objective fuel s).2.task_queue = [] := by
  refine ⟨?_, ?_, ?_⟩ <;> simp [process, planner_process_task, hq]

/-- Witness for C7 at a concrete faulted run from the empty initial state. -/
theorem planner_error_aborts_run_witness :
    (process (some "decomposition failed") [fun _ => true] "x" 5
        ⟨[], [], 3⟩).1 =
      some ⟨"error", some "decomposition failed",
            get_project_status ⟨[], [], 3⟩⟩ ∧
    (process (some "decomposition failed") [fun _ => true] "x" 5
        ⟨[], [], 3⟩).2 = ⟨[], [], 3⟩ ∧
    (process (some "decomposition failed") [fun _ => true] "x" 5
        ⟨[], [], 3⟩).2.task_queue = [] :=
  planner_error_aborts_run "decomposition failed" [fun _ => true] "x" 5
    ⟨[], [], 3⟩ rfl

/-- The four-stage pipeline of `ActionAgent.process_task`
(`agents/action_agent.py` lines 11-43), over the outcomes the stages
`gather_context`, `validate_requirements`, `implement_task`, `run_tests`
produce: each stage's outcome is tested in order and the first with status
`"error"` is returned as the task's final outcome; if none errors, the final
outcome is a success carrying `implement_task`'s output files. -/
def action_process_task (role : AgentRole)
    (gatherOutcome validateOutcome implementOutcome testOutcome : StatusUpdate) :
    StatusUpdate :=
  if gatherOutcome.status = "error" then gatherOutcome
  else if validateOutcome.status = "error" then validateOutcome
  else if implementOutcome.status = "error" then implementOutcome
  else if testOutcome.status = "error" then testOutcome
  else ⟨role, "success", implementOutcome.output_files, none⟩

/-- Counterexample to C6 as stated: the Planner role executor does not
produce its outcome by the pure four-stage pipeline. `PlannerAgent.process_task`
mutates the Task Graph — from the empty queue it enqueues two subtasks —
an effect no run of `action_process_task` (a pure map from stage outcomes to
one outcome) has; in the source, `PlannerAgent`, `LibrarianAgent` and
`ImplementationAgent` extend `BaseAgent` directly and define none of the four
stage methods, which exist only on `ActionAgent`. -/
theorem planner_executor_is_not_the_stage_pipeline :
    (planner_process_task none ⟨[], [], 3⟩ "x").2 ≠ ⟨[], [], 3⟩ ∧
    (planner_process_task none ⟨[], [], 3⟩ "x").2.task_queue.length = 2 ∧
    (planner_process_task none ⟨[], [], 3⟩ "x").1 =
      ⟨AgentRole.planner, "success", none, none⟩ := by
  refine ⟨?_, ?_, ?_⟩ <;> decide

/-- C6 (amended): the `ActionAgent` executor base — the class the Frontend
and Backend role agents derive from — produces exactly one Outcome from its
four stage outcomes: the first stage outcome whose status is `"error"` is the
final outcome and the later stages are ignored; when no stage errors, the
final outcome is a success carrying `implement_task`'s output files and no
error message. (The Planner, Librarian and Implementation executors override
`process_task` directly and do not run this pipeline.) -/
theorem action_pipeline_short_circuits (role : AgentRole)
    (g v i t : StatusUpdate) :
    (g.status = "error" → action_process_task role g v i t = g) ∧
    (g.status ≠ "error" → v.status = "error" →
      action_process_task role g v i t = v) ∧
    (g.status ≠ "error" → v.status ≠ "error" → i.status = "error" →
      action_process_task role g v i t = i) ∧
    (g.status ≠ "error" → v.status ≠ "error" → i.status ≠ "error" →
      t.status = "error" → action_process_task role g v i t = t) ∧
    (g.status ≠ "error" → v.status ≠ "error" → i.status ≠ "error" →
      t.status ≠ "error" →
      action_process_task role g v i t =
        ⟨role, "success", i.output_files, none⟩) := by
  refine ⟨?_, ?_, ?_, ?_, ?_⟩ <;>
    intros <;> simp [action_process_task, *]

/-- Witness for amended C6: with a failing implement stage the pipeline
returns exactly the implement stage's error outcome, skipping `run_tests`;
and with all stages succeeding it returns the success outcome carrying the
implement stage's files. -/
theorem action_pipeline_short_circuits_witness :
    action_process_task AgentRole.implementation
        ⟨AgentRole.implementation, "success", none, none⟩
        ⟨AgentRole.implementation, "success", none, none⟩
        ⟨AgentRole.implementation, "error", none, some "Implementation failed"⟩
        ⟨AgentRole.implementation, "error", none, some "Tests failed"⟩ =
      ⟨AgentRole.implementation, "error", none, some "Implementation failed"⟩ ∧
    action_process_task AgentRole.implementation
        ⟨AgentRole.implementation, "success", none, none⟩
        ⟨AgentRole.implementation, "success", none, none⟩
        ⟨AgentRole.implementation, "success", some ["src/api/new_endpoint.py"],
          none⟩
        ⟨AgentRole.implementation, "success", none, none⟩ =
      ⟨AgentRole.implementation, "success", some ["src/api/new_endpoint.py"],
        none⟩ :=
  ⟨(action_pipeline_short_circuits AgentRole.implementation
      ⟨AgentRole.implementation, "success", none, none⟩
      ⟨AgentRole.implementation, "success", none, none⟩
      ⟨AgentRole.implementation, "error", none, some "Implementation failed"⟩
      ⟨AgentRole.implementation, "error", none, some "Tests failed"⟩).2.2.1
      (by decide) (by decide) rfl,
   (action_pipeline_short_circuits AgentRole.implementation
      ⟨AgentRole.implementation, "success", none, none⟩
      ⟨AgentRole.implementation, "success", none, none⟩
      ⟨AgentRole.implementation, "success", some ["src/api/new_endpoint.py"],
        none⟩
      ⟨AgentRole.implementation, "success", none, none⟩).2.2.2.2
      (by decide) (by decide) (by decide) (by decide)⟩

/-- One Task Graph interaction as the Orchestrator's dispatch loop performs
it: obtain a subtask from `get_next_task` for some role and report some
outcome for it (success or failure) through `mark_task_complete`. -/
def DispatchStepRel (s s' : PlannerState) : Prop :=
  ∃ (r : AgentRole) (b : Bool) (t : Task),
    get_next_task s r = some t ∧ s' = mark_task_complete s t.description b

/-- Task Graph states reachable from a given state through dispatch
interactions. -/
def DispatchReach : PlannerState → PlannerState → Prop :=
  Relation.ReflTransGen DispatchStepRel

/-- Queue descriptions pairwise distinct. This holds for the queue the
Planner's decomposition produces (two fixed distinct descriptions) and is
preserved by every dispatch interaction; descriptions are the de-facto
subtask identity, so it is the running well-formedness invariant. -/
def QueueNodup (s : PlannerState) : Prop :=
  (s.task_queue.map Task.description).Nodup

instance (s : PlannerState) : Decidable (QueueNodup s) := by
  unfold QueueNodup; infer_instance

lemma markAux_queue_mem {M : Nat} {d : String} {b : Bool} :
    ∀ {l : List Task} {m : Task}, m ∈ l → m.description ≠ d →
      m ∈ (markAux M d b l).1 := by
  intro l
  induction l with
  | nil => intro m h; cases h
  | cons t ts ih =>
    intro m hm hne
    by_cases ht : t.description = d
    · cases b
      · rcases List.mem_cons.mp hm with h | h
        · exact absurd (h ▸ ht) hne
        · simp [markAux, ht]
          exact Or.inr h
      · rcases List.mem_cons.mp hm with h | h
        · exact absurd (h ▸ ht) hne
        · simp [markAux, ht]
          exact h
    · rcases List.mem_cons.mp hm with h | h
      · simp [markAux, ht, h]
      · simp [markAux, ht]
        exact Or.inr (ih h hne)

lemma markAux_descriptions_sublist (M : Nat) (d : String) (b : Bool) :
    ∀ l : List Task,
      List.Sublist ((markAux M d b l).1.map Task.description)
        (l.map Task.description) := by
  intro l
  induction l with
  | nil => simp [markAux]
  | cons t ts ih =>
    by_cases ht : t.description = d
    · cases b
      · simp only [markAux, ht, if_true, if_neg (Bool.false_ne_true)]
        exact List.Sublist.cons₂ _ (List.Sublist.refl _)
      · simp only [markAux, ht, if_true, if_pos rfl]
        exact List.Sublist.cons _ (List.Sublist.refl _)
    · simp only [markAux, ht, if_false, List.map_cons]
      exact List.Sublist.cons₂ _ ih

/-- Every dispatch interaction preserves the queue-description invariant. -/
lemma mark_preserves_nodup {s : PlannerState} (d : String) (b : Bool)
    (hnd : QueueNodup s) : QueueNodup (mark_task_complete s d b) :=
  List.Nodup.sublist
    (markAux_descriptions_sublist s.max_retries d b s.task_queue) hnd

/-- A queued task whose description differs from the marked one survives a
`mark_task_complete` call unchanged (still the same record, still queued). -/
lemma mark_preserves_other_tasks {s : PlannerState} {m : Task} {d : String}
    (b : Bool) (hm : m ∈ s.task_queue) (hne : m.description ≠ d) :
    m ∈ (mark_task_complete s d b).task_queue :=
  markAux_queue_mem hm hne

lemma dispatch_step_preserves_failed {s s' : PlannerState} {t : Task}
    (hnd : QueueNodup s) (ht : t ∈ s.task_queue) (hf : t.status = "failed")
    (hstep : DispatchStepRel s s') :
    t ∈ s'.task_queue ∧ QueueNodup s' := by
  rcases hstep with ⟨r, b, u, hu, rfl⟩
  rcases get_next_task_some hu with ⟨humem, hur, hup, -⟩
  have hne : t.description ≠ u.description := by
    intro heq
    have : t = u := List.inj_on_of_nodup_map hnd ht humem heq
    rw [this, hup] at hf
    exact absurd hf (by decide)
  exact ⟨mark_preserves_other_tasks b ht hne, mark_preserves_nodup _ b hnd⟩

lemma dispatch_reach_preserves_failed {s s' : PlannerState} {t : Task}
    (hnd : QueueNodup s) (ht : t ∈ s.task_queue) (hf : t.status = "failed")
    (hreach : DispatchReach s s') :
    t ∈ s'.task_queue ∧ QueueNodup s' := by
  induction hreach with
  | refl => exact ⟨ht, hnd⟩
  | tail hr hstep ih =>
    exact dispatch_step_preserves_failed ih.2 ih.1 hf hstep

/-- C2: a failed `mark_task_complete` whose incremented attempt count
reaches the retry budget freezes the matched subtask's status at
`"failed"`; and a subtask whose status is `"failed"` stays in the queue
with status `"failed"` in every state reachable through further dispatch
interactions, where `get_next_task` never returns it for any role
(queue descriptions are assumed pairwise distinct, as decomposition
produces them). -/
theorem exhausted_task_never_redispatched (s s' : PlannerState) (t : Task)
    (hnd : QueueNodup s) (ht : t ∈ s.task_queue) (hf : t.status = "failed")
    (hreach : DispatchReach s s') :
    (∀ u : Task, s.max_retries ≤ u.attempts + 1 →
      (failTask s.max_retries u).status = "failed") ∧
    (t ∈ s'.task_queue ∧ t.status = "failed" ∧
      ∀ r : AgentRole, get_next_task s' r ≠ some t) := by
  refine ⟨?_, ?_⟩
  · intro u hu
    simp [failTask, hu]
  · obtain ⟨hmem, -⟩ := dispatch_reach_preserves_failed hnd ht hf hreach
    refine ⟨hmem, hf, ?_⟩
    intro r hcontra
    have := (get_next_task_some hcontra).2.2.1
    rw [hf] at this
    exact absurd this (by decide)

/-- Witness for C2: from a concrete state holding an exhausted `"failed"`
subtask `"a"` (attempts 3 = retry budget) and a pending subtask `"b"`, take
the dispatch interaction that returns `"b"` and marks it successful; in the
resulting state `"a"` is still queued, still `"failed"`, and not returned
for the Implementation role; and `failTask` at the budget yields `"failed"`. -/
theorem exhausted_task_never_redispatched_witness :
    (failTask 3 ⟨"c", AgentRole.implementation, [], "pending", 2⟩).status =
      "failed" ∧
    ((⟨"a", AgentRole.implementation, [], "failed", 3⟩ : Task) ∈
      (mark_task_complete
        ⟨[⟨"a", AgentRole.implementation, [], "failed", 3⟩,
          ⟨"b", AgentRole.implementation, [], "pending", 0⟩], [], 3⟩
        "b" true).task_queue ∧
     (⟨"a", AgentRole.implementation, [], "failed", 3⟩ : Task).status =
       "failed" ∧
     ∀ r : AgentRole,
       get_next_task
         (mark_task_complete
           ⟨[⟨"a", AgentRole.implementation, [], "failed", 3⟩,
             ⟨"b", AgentRole.implementation, [], "pending", 0⟩], [], 3⟩
           "b" true) r ≠
         some ⟨"a", AgentRole.implementation, [], "failed", 3⟩) := by
  have h := exhausted_task_never_redispatched
    ⟨[⟨"a", AgentRole.implementation, [], "failed", 3⟩,
      ⟨"b", AgentRole.implementation, [], "pending", 0⟩], [], 3⟩
    (mark_task_complete
      ⟨[⟨"a", AgentRole.implementation, [], "failed", 3⟩,
        ⟨"b", AgentRole.implementation, [], "pending", 0⟩], [], 3⟩
      "b" true)
    ⟨"a", AgentRole.implementation, [], "failed", 3⟩
    (by decide) (by decide) rfl
    (Relation.ReflTransGen.tail Relation.ReflTransGen.refl
      ⟨AgentRole.implementation, true,
        ⟨"b", AgentRole.implementation, [], "pending", 0⟩, by decide, rfl⟩)
  exact ⟨h.1 ⟨"c", AgentRole.implementation, [], "pending", 2⟩ (by decide), h.2⟩

lemma exists_first_match_decomp {s : PlannerState} {u : Task}
    (hnd : QueueNodup s) (hu : u ∈ s.task_queue) :
    ∃ l₁ l₂, s.task_queue = l₁ ++ u :: l₂ ∧
      ∀ v ∈ l₁, v.description ≠ u.description := by
  obtain ⟨l₁, l₂, hq⟩ := List.append_of_mem hu
  refine ⟨l₁, l₂, hq, ?_⟩
  intro v hv heq
  have h1 : ((l₁ ++ u :: l₂).map Task.description).Nodup := hq ▸ hnd
  have h2 : (u.description ::
      (l₁.map Task.description ++ l₂.map Task.description)).Nodup := by
    refine List.Perm.nodup List.perm_middle ?_
    simpa using h1
  have h3 : u.description ∉ l₁.map Task.description :=
    fun hmem => (List.nodup_cons.mp h2).1 (List.mem_append.mpr (Or.inl hmem))
  exact h3 (heq ▸ List.mem_map_of_mem Task.description hv)

/-- Progress measure for the dispatch loop: remaining retry headroom plus a
unit for a still-pending status, plus one for mere queue membership. -/
def taskPotential (M : Nat) (t : Task) : Nat :=
  (M + 1 - t.attempts) + (if t.status = "pending" then 1 else 0) + 1

def stateMeasure (s : PlannerState) : Nat :=
  (s.task_queue.map (taskPotential s.max_retries)).sum

lemma taskPotential_pos (M : Nat) (t : Task) : 1 ≤ taskPotential M t := by
  unfold taskPotential
  split <;> omega

lemma failTask_potential_lt {M : Nat} {u : Task} (hp : u.status = "pending") :
    taskPotential M (failTask M u) < taskPotential M u := by
  unfold taskPotential failTask
  by_cases h : u.attempts + 1 ≥ M
  · simp [hp, h]
    omega
  · simp [hp, h]
    omega

/-- Marking a pending queued task (success or failure) strictly decreases
the measure, provided queue descriptions are distinct so the scan hits the
very task `get_next_task` returned. -/
lemma measure_mark_lt {s : PlannerState} {u : Task} (hnd : QueueNodup s)
    (hu : u ∈ s.task_queue) (hp : u.status = "pending") (b : Bool) :
    stateMeasure (mark_task_complete s u.description b) < stateMeasure s := by
  obtain ⟨l₁, l₂, hq, hfst⟩ := exists_first_match_decomp hnd hu
  cases b
  · rw [mark_failure_eq hq hfst]
    unfold stateMeasure
    simp only [hq, List.map_append, List.map_cons, List.sum_append,
      List.sum_cons]
    have := failTask_potential_lt (M := s.max_retries) hp
    omega
  · rw [mark_success_eq hq hfst]
    unfold stateMeasure
    simp only [hq, List.map_append, List.map_cons, List.sum_append,
      List.sum_cons]
    have := taskPotential_pos s.max_retries u
    omega

lemma dispatchStep_nodup (pol : String → Bool) {s : PlannerState}
    (hnd : QueueNodup s) : QueueNodup (dispatchStep pol s) := by
  unfold dispatchStep
  cases h : get_next_task s AgentRole.implementation with
  | none => exact hnd
  | some u => exact mark_preserves_nodup _ _ hnd

lemma dispatchStep_eq_or_lt (pol : String → Bool) {s : PlannerState}
    (hnd : QueueNodup s) :
    dispatchStep pol s = s ∨
      stateMeasure (dispatchStep pol s) < stateMeasure s := by
  unfold dispatchStep
  cases h : get_next_task s AgentRole.implementation with
  | none => exact Or.inl rfl
  | some u =>
    rcases get_next_task_some h with ⟨hmem, hready⟩
    exact Or.inr (measure_mark_lt hnd hmem hready.2.1 _)

lemma dispatchStep_measure_le (pol : String → Bool) {s : PlannerState}
    (hnd : QueueNodup s) :
    stateMeasure (dispatchStep pol s) ≤ stateMeasure s := by
  rcases dispatchStep_eq_or_lt pol hnd with h | h
  · rw [h]
  · exact le_of_lt h

lemma dispatchPass_cons (a : String → Bool) (A : List (String → Bool))
    (s : PlannerState) :
    dispatchPass (a :: A) s = dispatchPass A (dispatchStep a s) := rfl

lemma dispatchPass_nodup (A : List (String → Bool)) :
    ∀ {s : PlannerState}, QueueNodup s → QueueNodup (dispatchPass A s) := by
  induction A with
  | nil => intro s hnd; exact hnd
  | cons a A ih =>
    intro s hnd
    rw [dispatchPass_cons]
    exact ih (dispatchStep_nodup a hnd)

lemma dispatchPass_measure_le (A : List (String → Bool)) :
    ∀ {s : PlannerState}, QueueNodup s →
      stateMeasure (dispatchPass A s) ≤ stateMeasure s := by
  induction A with
  | nil => intro s _; exact le_rfl
  | cons a A ih =>
    intro s hnd
    rw [dispatchPass_cons]
    exact le_trans (ih (dispatchStep_nodup a hnd))
      (dispatchStep_measure_le a hnd)

lemma dispatchPass_eq_or_lt (A : List (String → Bool)) :
    ∀ {s : PlannerState}, QueueNodup s →
      dispatchPass A s = s ∨
        stateMeasure (dispatchPass A s) < stateMeasure s := by
  induction A with
  | nil => intro s _; exact Or.inl rfl
  | cons a A ih =>
    intro s hnd
    rw [dispatchPass_cons]
    rcases dispatchStep_eq_or_lt a hnd with h | h
    · rw [h]
      exact ih hnd
    · refine Or.inr (lt_of_le_of_lt ?_ h)
      exact dispatchPass_measure_le A (dispatchStep_nodup a hnd)

lemma runPasses_pass_comm (A : List (String → Bool)) :
    ∀ (n : Nat) (s : PlannerState),
      runPasses A n (dispatchPass A s) = dispatchPass A (runPasses A n s) := by
  intro n
  induction n with
  | zero => intro s; rfl
  | succ n ih => intro s; simp [runPasses, ih]

lemma exists_fixpoint_aux (A : List (String → Bool)) (N : Nat) :
    ∀ s : PlannerState, stateMeasure s ≤ N → QueueNodup s →
      ∃ n, dispatchPass A (runPasses A n s) = runPasses A n s := by
  induction N with
  | zero =>
    intro s hm hnd
    rcases dispatchPass_eq_or_lt A hnd with h | h
    · exact ⟨0, h⟩
    · omega
  | succ N ih =>
    intro s hm hnd
    rcases dispatchPass_eq_or_lt A hnd with h | h
    · exact ⟨0, h⟩
    · obtain ⟨n, hn⟩ := ih (dispatchPass A s) (by omega) (dispatchPass_nodup A hnd)
      refine ⟨n + 1, ?_⟩
      have e : runPasses A (n + 1) s = runPasses A n (dispatchPass A s) := by
        show dispatchPass A (runPasses A n s) = runPasses A n (dispatchPass A s)
        exact (runPasses_pass_comm A n s).symm
      rw [e]
      exact hn

/-- C3 (amended): for every finite queued-subtask set with pairwise-distinct
descriptions and a finite retry budget, and any executor outcomes, repeated
dispatch passes stabilize: after finitely many passes a further pass changes
nothing. (The loop exits only if `has_pending` is false at that point, which
— see the counterexample — need not happen.) -/
theorem dispatch_passes_reach_fixpoint (agents : List (String → Bool))
    (s : PlannerState) (hnd : QueueNodup s) :
    ∃ n, runPasses agents (n + 1) s = runPasses agents n s :=
  exists_fixpoint_aux agents (stateMeasure s) s le_rfl hnd

/-- Witness for amended C3: the concrete two-subtask state with a blocked
dependent stabilizes under an always-failing executor. -/
theorem dispatch_passes_reach_fixpoint_witness :
    ∃ n, runPasses [fun _ => false] (n + 1)
        ⟨[⟨"taskA", AgentRole.implementation, [], "pending", 0⟩,
          ⟨"taskB", AgentRole.implementation, ["taskA"], "pending", 0⟩],
         [], 3⟩ =
      runPasses [fun _ => false] n
        ⟨[⟨"taskA", AgentRole.implementation, [], "pending", 0⟩,
          ⟨"taskB", AgentRole.implementation, ["taskA"], "pending", 0⟩],
         [], 3⟩ :=
  dispatch_passes_reach_fixpoint [fun _ => false]
    ⟨[⟨"taskA", AgentRole.implementation, [], "pending", 0⟩,
      ⟨"taskB", AgentRole.implementation, ["taskA"], "pending", 0⟩],
     [], 3⟩ (by decide)

/-- The single always-failing Implementation executor. -/
def alwaysFail : List (String → Bool) := [fun _ => false]

/-- An acyclic two-subtask queue: `"taskB"` depends on `"taskA"`,
`"taskA"` on nothing; retry budget 3. -/
def blockedPairState : PlannerState :=
  ⟨[⟨"taskA", AgentRole.implementation, [], "pending", 0⟩,
    ⟨"taskB", AgentRole.implementation, ["taskA"], "pending", 0⟩], [], 3⟩

/-- The four states the blocked-pair run visits (attempts of `"taskA"`
climbing to the budget, then frozen `"failed"` with `"taskB"` still
pending and unselectable). -/
def blockedStates : List PlannerState :=
  [blockedPairState,
   ⟨[⟨"taskA", AgentRole.implementation, [], "pending", 1⟩,
     ⟨"taskB", AgentRole.implementation, ["taskA"], "pending", 0⟩], [], 3⟩,
   ⟨[⟨"taskA", AgentRole.implementation, [], "pending", 2⟩,
     ⟨"taskB", AgentRole.implementation, ["taskA"], "pending", 0⟩], [], 3⟩,
   ⟨[⟨"taskA", AgentRole.implementation, [], "failed", 3⟩,
     ⟨"taskB", AgentRole.implementation, ["taskA"], "pending", 0⟩], [], 3⟩]

lemma runPasses_blocked_mem (n : Nat) :
    runPasses alwaysFail n blockedPairState ∈ blockedStates := by
  induction n with
  | zero => simp [runPasses, blockedStates]
  | succ n ih =>
    have e : runPasses alwaysFail (n + 1) blockedPairState =
        dispatchPass alwaysFail (runPasses alwaysFail n blockedPairState) := rfl
    rcases List.mem_cons.mp ih with h | h
    · rw [e, h]; decide
    rcases List.mem_cons.mp h with h | h
    · rw [e, h]; decide
    rcases List.mem_cons.mp h with h | h
    · rw [e, h]; decide
    rcases List.mem_cons.mp h with h | h
    · rw [e, h]; decide
    · cases h

/-- Counterexample to C3 as stated: a finite acyclic dependency set
(`"taskB"` depends only on `"taskA"`) with retry budget 3 where repeated
dispatch passes never reach `has_pending = false`: the executor fails
`"taskA"` three times, freezing it `"failed"`, after which `"taskB"`'s
dependency can never enter the completed set, so `"taskB"` stays `"pending"`
forever and the loop's exit condition never holds. -/
theorem dispatch_loop_never_drains :
    blockedPairState.task_queue.map Task.dependencies = [[], ["taskA"]] ∧
    blockedPairState.max_retries = 3 ∧
    ¬ ∃ n : Nat, has_pending (runPasses alwaysFail n blockedPairState) = false := by
  refine ⟨rfl, rfl, ?_⟩
  rintro ⟨n, hn⟩
  have h := runPasses_blocked_mem n
  rcases List.mem_cons.mp h with h | h
  · rw [h] at hn; exact absurd hn (by decide)
  rcases List.mem_cons.mp h with h | h
  · rw [h] at hn; exact absurd hn (by decide)
  rcases List.mem_cons.mp h with h | h
  · rw [h] at hn; exact absurd hn (by decide)
  rcases List.mem_cons.mp h with h | h
  · rw [h] at hn; exact absurd hn (by decide)
  · cases h

end Treebrain
